import Mathlib

set_option maxRecDepth 40000

/-!
# ECB block-visualisation pipeline: formal model

Shallow embedding of `src/aes.py` (`ECBImageProcessor`).  The program reads a
ciphertext file, truncates it to a whole number of `block_size`-byte blocks,
counts the frequency of every distinct block, sorts the distinct blocks by
count descending (Python's stable `sorted`), assigns each ranked block a color
from a deterministically generated palette, expands each input block into
`block_size // pixels_per_block` pixels of its color, and draws the pixels
into a roughly square raster.

Conventions of the embedding:
* bytes are `Nat` values, a block is a `List Nat`, a color an RGB triple;
* Python exceptions that the pure pipeline can raise are modelled by
  `Except PyErr`; file I/O is modelled by passing the file's bytes in as an
  argument and returning the drawing commands as data;
* Python's `sorted(..., key=lambda x: x[1], reverse=True)` is a stable sort by
  count descending.  `List.mergeSort` is also stable, and a stable sort is
  uniquely determined by the ordering, so `List.mergeSort` with the
  count-descending comparison is an exact model;
* `int(math.sqrt(t))` is modelled by `Nat.sqrt t`.  `math.sqrt` is correctly
  rounded on IEEE doubles, and `int(math.sqrt(t)) = Nat.sqrt t` for every
  `t < 4.5 * 10 ^ 15`, which covers every feasible pixel count.
-/

namespace ECB

/-- An RGB color triple, each component in `0..255`. -/
abbrev Color := Nat × Nat × Nat

/-- A ciphertext block: a list of byte values. -/
abbrev Block := List Nat

/-- Runtime errors the pure part of the pipeline can raise.  The Python code
defines no error class of its own (in particular no `ConfigurationError`);
the only exception reachable in the pure pipeline is `ZeroDivisionError`. -/
inductive PyErr where
  | zeroDivisionError
  deriving DecidableEq

/-- The configuration fields stored by `ECBImageProcessor.__init__`.
The constructor stores them unchecked: it performs no validation. -/
structure Config where
  block_size : Nat
  max_colors : Nat
  flip : Bool
  pixels_per_block : Nat

/-- `read_image_bytes`, with the bytes of the file passed in as `img_data`:
`img_data[:len(img_data) - (len(img_data) % block_size)]`.
Python raises `ZeroDivisionError` on `len(img_data) % 0`. -/
def read_image_bytes (block_size : Nat) (img_data : List Nat) :
    Except PyErr (List Nat) :=
  if block_size = 0 then .error .zeroDivisionError
  else .ok (img_data.take (img_data.length - img_data.length % block_size))

/-- `break_into_blocks`:
`[img_data[i:i + block_size] for i in range(0, len(img_data), block_size)]`.
For `block_size > 0`, `range(0, L, block_size)` has `⌈L / block_size⌉`
elements `0, block_size, 2 * block_size, ...`; the slice at `i` keeps at most
`block_size` bytes.  (The pipeline only calls this after `read_image_bytes`,
so `block_size = 0` is unreachable here.) -/
def break_into_blocks (block_size : Nat) (img_data : List Nat) : List Block :=
  (List.range ((img_data.length + block_size - 1) / block_size)).map
    (fun i => (img_data.drop (i * block_size)).take block_size)

/-- One step of `collections.Counter`: bump the count of `b`, or append
`(b, 1)` if `b` is new.  `Counter` iterates its keys in insertion order, i.e.
in first-seen order, which the association-list representation preserves. -/
def bumpCount (acc : List (Block × Nat)) (b : Block) : List (Block × Nat) :=
  if acc.any (fun p => p.1 == b) then
    acc.map (fun p => if p.1 == b then (p.1, p.2 + 1) else p)
  else acc ++ [(b, 1)]

/-- `count_block_frequencies`: `Counter(img_blocks)` as an association list,
keys distinct, in first-seen order. -/
def count_block_frequencies (img_blocks : List Block) : List (Block × Nat) :=
  img_blocks.foldl bumpCount []

/-- `generate_color_palette`: white, then `range(1, max_colors - 1)` entries
`(i * 50 % 255, i * 80 % 255, i * 110 % 255)` (note: the Python code reduces
modulo `255`, not `256`), then black. -/
def generate_color_palette (max_colors : Nat) : List Color :=
  [(255, 255, 255)] ++
    (List.range' 1 (max_colors - 1 - 1)).map
      (fun i => (i * 50 % 255, i * 80 % 255, i * 110 % 255)) ++
    [(0, 0, 0)]

/-- The comparison realised by Python's
`sorted(block_frequencies.items(), key=lambda x: x[1], reverse=True)`:
`a` may precede `b` iff `b.2 ≤ a.2` (count descending). -/
def countGE (a b : Block × Nat) : Bool := b.2 ≤ a.2

/-- The `sorted_blocks` list built inside `assign_colors_to_blocks`: a stable
sort of the `Counter` items by count descending. -/
def sorted_blocks (block_frequencies : List (Block × Nat)) :
    List (Block × Nat) :=
  block_frequencies.mergeSort countGE

/-- `assign_colors_to_blocks`: the `i`-th ranked block gets palette entry `i`
when `i < len(color_palette) - 1`, and black otherwise.  The resulting Python
dict (distinct keys, insertion order) is modelled as an association list. -/
def assign_colors_to_blocks (block_frequencies : List (Block × Nat))
    (color_palette : List Color) : List (Block × Color) :=
  (sorted_blocks block_frequencies).enum.map
    (fun p =>
      (p.2.1,
        if p.1 < color_palette.length - 1 then color_palette.getD p.1 (0, 0, 0)
        else (0, 0, 0)))

/-- `block_color_map.get(block, (0, 0, 0))`: dict lookup with black default. -/
def lookupColor (block_color_map : List (Block × Color)) (b : Block) : Color :=
  match block_color_map.find? (fun p => p.1 == b) with
  | some p => p.2
  | none => (0, 0, 0)

/-- `map_blocks_to_colors`: each input block, in chunk order, contributes
`block_size // pixels_per_block` pixels of its color.  Python raises
`ZeroDivisionError` when `pixels_per_block = 0`. -/
def map_blocks_to_colors (block_size pixels_per_block : Nat)
    (img_blocks : List Block) (block_color_map : List (Block × Color)) :
    Except PyErr (List Color) :=
  if pixels_per_block = 0 then .error .zeroDivisionError
  else .ok (img_blocks.flatMap
    (fun b => List.replicate (block_size / pixels_per_block)
      (lookupColor block_color_map b)))

/-- The output raster: canvas size plus the list of `draw_image.point` calls
in execution order. -/
structure ImageOut where
  width : Nat
  height : Nat
  points : List ((Nat × Nat) × Color)
  deriving DecidableEq

/-- The canvas height computed by `create_image`:
`img_height = total_pixels // img_width`, incremented when the division has a
remainder (`img_width` is `int(math.sqrt(total_pixels))`). -/
def imgHeight (total_pixels : Nat) : Nat :=
  if total_pixels % Nat.sqrt total_pixels ≠ 0 then
    total_pixels / Nat.sqrt total_pixels + 1
  else total_pixels / Nat.sqrt total_pixels

/-- `create_image`: `img_width = int(math.sqrt(total_pixels))` (see the module
comment for the `Nat.sqrt` modelling), then the height `imgHeight` above —
Python raises `ZeroDivisionError` at `total_pixels // img_width` when
`img_width = 0`.  Pixel `idx` is drawn at `(idx % img_width,
idx // img_width)`, with the row mirrored to `img_height - y - 1` when `flip`
is set, guarded by `y < img_height`.  (The guard also admits Python's
negative flipped rows; those are unreachable, since every row index is
`< img_height`, so truncated `Nat` subtraction is faithful.) -/
def create_image (flip : Bool) (pixel_colors : List Color) :
    Except PyErr ImageOut :=
  if Nat.sqrt pixel_colors.length = 0 then .error .zeroDivisionError
  else
    .ok
      { width := Nat.sqrt pixel_colors.length
        height := imgHeight pixel_colors.length
        points :=
          (pixel_colors.enum.map (fun p =>
            ((p.1 % Nat.sqrt pixel_colors.length,
              if flip then
                imgHeight pixel_colors.length -
                  p.1 / Nat.sqrt pixel_colors.length - 1
              else p.1 / Nat.sqrt pixel_colors.length), p.2))).filter
            (fun q => q.1.2 < imgHeight pixel_colors.length) }

/-- `process_image`, after the file read: the pure pipeline
chunk → count → palette → assign → expand → render.  An exception at any
stage aborts the run, so an `.error` result means no image is written. -/
def process_image (cfg : Config) (file_bytes : List Nat) :
    Except PyErr ImageOut :=
  match read_image_bytes cfg.block_size file_bytes with
  | .error e => .error e
  | .ok img_data =>
    match map_blocks_to_colors cfg.block_size cfg.pixels_per_block
        (break_into_blocks cfg.block_size img_data)
        (assign_colors_to_blocks
          (count_block_frequencies (break_into_blocks cfg.block_size img_data))
          (generate_color_palette cfg.max_colors)) with
    | .error e => .error e
    | .ok pixel_colors => create_image cfg.flip pixel_colors

/-- `true` iff the run completed without raising (and hence wrote an image). -/
def runOk {α : Type} (e : Except PyErr α) : Bool :=
  match e with
  | .ok _ => true
  | .error _ => false

/-- The pixel list of a successful expansion stage (`[]` on an exception). -/
def okPixels (e : Except PyErr (List Color)) : List Color :=
  match e with
  | .ok l => l
  | .error _ => []

/-- Spec-side layout definition, for comparison with `create_image`
(spec §4.4): `width = floor(sqrt(total pixel count))`. -/
def specWidth (n : Nat) : Nat := Nat.sqrt n

/-- Spec-side layout definition (spec §4.4): `height = ceil(n / width)`,
written on `Nat` as `(n + width - 1) / width`. -/
def specHeight (n : Nat) : Nat := (n + specWidth n - 1) / specWidth n

/-- Spec-side layout definition (spec §4.4): pixel at linear index `k` maps
to `(k mod width, k div width)`, with the y-coordinate mirrored to
`height - y - 1` when the flip option is set. -/
def specPoint (fl : Bool) (n k : Nat) : Nat × Nat :=
  (k % specWidth n,
    if fl then specHeight n - k / specWidth n - 1 else k / specWidth n)

/-- 53 distinct one-byte blocks `[0], [1], ..., [52]`, each occurring once
(obtained from the 53-byte input `bytes(range(53))` with `block_size = 1`). -/
def cexBlocks : List Block := (List.range 53).map (fun b => [b])

/-- The block-color map the pipeline builds for `cexBlocks` under the default
configuration `max_colors = 254`. -/
def cexMap : List (Block × Color) :=
  assign_colors_to_blocks (count_block_frequencies cexBlocks)
    (generate_color_palette 254)

/-- The blocks of the 32-zero-byte scenario input with `block_size = 16`:
two identical all-zero 16-byte blocks. -/
def zBlocks : List Block := break_into_blocks 16 (List.replicate 32 0)

/-- The block-color map the pipeline builds for `zBlocks` under the default
configuration `max_colors = 254`. -/
def zMap : List (Block × Color) :=
  assign_colors_to_blocks (count_block_frequencies zBlocks)
    (generate_color_palette 254)

/-! ## Helper lemmas -/

/-- The palette always has exactly `max_colors` entries once `max_colors ≥ 2`:
one white sentinel, `max_colors - 2` formula colors, one black sentinel. -/
lemma palette_length (mc : Nat) (h2 : 2 ≤ mc) :
    (generate_color_palette mc).length = mc := by
  simp only [generate_color_palette, List.length_append, List.length_map,
    List.length_range', List.length_cons, List.length_nil]
  omega

/-- The two all-zero blocks of the 32-zero-byte scenario. -/
lemma zBlocks_eq : zBlocks = [List.replicate 16 0, List.replicate 16 0] := by
  decide

/-- In the 32-zero-byte scenario the single distinct block is ranked first
and receives palette entry 0, pure white. -/
lemma zMap_eq : zMap = [(List.replicate 16 0, (255, 255, 255))] := by
  have hfreq : count_block_frequencies zBlocks = [(List.replicate 16 0, 2)] := by
    decide
  have hsort : sorted_blocks [(List.replicate 16 0, 2)]
      = [(List.replicate 16 0, 2)] := List.mergeSort_singleton _
  unfold zMap assign_colors_to_blocks
  rw [hfreq, hsort]
  decide

/-! ## Claims -/

/-- **C2, counterexample.**  The claim states palette entry `i` is
`((i * 50) mod 256, (i * 80) mod 256, (i * 110) mod 256)`.  Under the default
`max_colors = 254`, entry `6` is `(45, 225, 150)` — the code reduces modulo
`255` — while the claimed mod-256 formula gives `(44, 224, 148)`. -/
theorem palette_mod256_cex :
    (generate_color_palette 254).getD 6 (0, 0, 0) = (45, 225, 150) ∧
    ((45, 225, 150) : Color) ≠ (6 * 50 % 256, 6 * 80 % 256, 6 * 110 % 256) := by
  constructor
  · decide
  · decide

/-- **C2, amended.**  Palette generation produces exactly `max_colors` colors
where entry 0 is pure white, entry `max_colors - 1` is pure black, and every
entry `i` with `1 ≤ i ≤ max_colors - 2` has component values
`((i * 50) mod 255, (i * 80) mod 255, (i * 110) mod 255)` (modulo 255, not
256 as the spec claims). -/
theorem palette_spec (mc i : Nat) (h2 : 2 ≤ mc) (h1 : 1 ≤ i)
    (hi : i < mc - 1) :
    (generate_color_palette mc).length = mc ∧
    (generate_color_palette mc).getD 0 (0, 0, 0) = (255, 255, 255) ∧
    (generate_color_palette mc).getD (mc - 1) (0, 0, 0) = (0, 0, 0) ∧
    (generate_color_palette mc).getD i (0, 0, 0)
      = (i * 50 % 255, i * 80 % 255, i * 110 % 255) := by
  have hmid : ((List.range' 1 (mc - 1 - 1)).map
      (fun j => ((j * 50 % 255, j * 80 % 255, j * 110 % 255) : Color))).length
      = mc - 2 := by
    simp only [List.length_map, List.length_range']
    omega
  refine ⟨palette_length mc h2, rfl, ?_, ?_⟩
  · unfold generate_color_palette
    rw [List.getD_append_right _ _ _ _ (by simp [hmid]; omega)]
    have h0 : mc - 1 - ([((255, 255, 255) : Color)] ++
        (List.range' 1 (mc - 1 - 1)).map
          (fun j => ((j * 50 % 255, j * 80 % 255, j * 110 % 255) : Color))).length
        = 0 := by simp [hmid]; omega
    rw [h0]
    rfl
  · unfold generate_color_palette
    rw [List.getD_append _ _ _ _ (by simp [hmid]; omega)]
    rw [List.getD_append_right _ _ _ _ (by simp; omega)]
    rw [List.getD_eq_getElem _ _ (by simp [hmid]; omega)]
    simp only [List.getElem_map, List.getElem_range', List.length_cons,
      List.length_nil]
    congr 1
    · congr 1
      omega
    · congr 1 <;> congr 1 <;> omega

/-- **C2, witness** for `palette_spec` at `max_colors = 254`, `i = 6`. -/
theorem palette_spec_witness :
    (generate_color_palette 254).length = 254 ∧
    (generate_color_palette 254).getD 0 (0, 0, 0) = (255, 255, 255) ∧
    (generate_color_palette 254).getD (254 - 1) (0, 0, 0) = (0, 0, 0) ∧
    (generate_color_palette 254).getD 6 (0, 0, 0)
      = (6 * 50 % 255, 6 * 80 % 255, 6 * 110 % 255) :=
  palette_spec 254 6 (by decide) (by decide) (by decide)

/-- **C1, counterexample.**  The claim states that each of the top
`max_colors - 2` ranked blocks receives a unique non-sentinel color.  Under
the default `max_colors = 254`, feed 53 distinct blocks (each of frequency 1,
so ranked in first-seen order): the blocks ranked 1 and 52 — both within the
top 252 — receive the *same* color `(50, 80, 110)`, because all three channel
formulas `i * c % 255` have period 51 in `i`. -/
theorem color_injectivity_cex :
    lookupColor cexMap [1] = (50, 80, 110) ∧
    lookupColor cexMap [52] = (50, 80, 110) ∧
    ([1] : Block) ≠ [52] := by
  have hfreq : count_block_frequencies cexBlocks
      = (List.range 53).map (fun b => ([b], 1)) := by decide
  have hsort : sorted_blocks ((List.range 53).map (fun b => ([b], 1)))
      = (List.range 53).map (fun b => ([b], 1)) :=
    List.mergeSort_of_sorted (by decide)
  unfold cexMap assign_colors_to_blocks
  rw [hfreq, hsort]
  refine ⟨by decide, by decide, by decide⟩

/-- **C1, amended.**  The `i`-th ranked distinct block receives palette entry
`i` whenever `i < max_colors - 1` (entry 0 being the white sentinel), and
every block ranked at or beyond `max_colors - 1` receives the overflow color
pure black.  The palette entries handed to the top-ranked blocks are *not*
necessarily unique or non-sentinel (see `color_injectivity_cex`). -/
theorem assign_rank_colors (freqs : List (Block × Nat)) (mc i : Nat)
    (h2 : 2 ≤ mc) (hi : i < (sorted_blocks freqs).length) :
    (assign_colors_to_blocks freqs (generate_color_palette mc)).getD i
        ([], (0, 0, 0))
      = (((sorted_blocks freqs).getD i ([], 0)).1,
        if i < mc - 1 then (generate_color_palette mc).getD i (0, 0, 0)
        else (0, 0, 0)) := by
  unfold assign_colors_to_blocks
  rw [List.getD_eq_getElem _ _ (by simpa using hi)]
  rw [List.getD_eq_getElem _ _ hi]
  simp only [List.getElem_map, List.getElem_enum, palette_length mc h2]

/-- **C1, witness** for `assign_rank_colors`: two distinct blocks with
`max_colors = 2`; the block ranked 1 falls beyond `max_colors - 1 = 1` and
receives the overflow black. -/
theorem assign_rank_colors_witness :
    (assign_colors_to_blocks [([0], 5), ([1], 3)] (generate_color_palette 2)).getD
        1 ([], (0, 0, 0))
      = (((sorted_blocks [([0], 5), ([1], 3)]).getD 1 ([], 0)).1,
        if 1 < 2 - 1 then (generate_color_palette 2).getD 1 (0, 0, 0)
        else (0, 0, 0)) :=
  assign_rank_colors [([0], 5), ([1], 3)] 2 1 (by decide)
    (by simp [sorted_blocks])

/-- **C5, counterexample.**  For the 32-zero-byte input with
`block_size = 16` and `pixels_per_block = 16`, the claim expects 2 white runs
of 16 pixels each, i.e. 32 white pixels.  The code emits
`block_size // pixels_per_block = 1` pixel per block: 2 pixels, not 32. -/
theorem scenario_ppb16_cex :
    map_blocks_to_colors 16 16 zBlocks zMap
      ≠ .ok (List.replicate 32 (255, 255, 255)) := by
  have h : map_blocks_to_colors 16 16 zBlocks zMap
      = .ok [(255, 255, 255), (255, 255, 255)] := by
    rw [zMap_eq, zBlocks_eq]
    rfl
  rw [h]
  intro hcontra
  injection hcontra with hlist
  have := congrArg List.length hlist
  simp at this

/-- **C5, amended.**  For the 32-zero-byte input with `block_size = 16`, both
(identical) blocks map to palette entry 0, pure white; the output pixel
sequence is 32 white pixels with `pixels_per_block = 1`, and **2** white
pixels (one per block, since each block contributes
`block_size // pixels_per_block = 1` pixel) with `pixels_per_block = 16`. -/
theorem scenario_32_zeros :
    lookupColor zMap (List.replicate 16 0) = (255, 255, 255) ∧
    map_blocks_to_colors 16 1 zBlocks zMap
      = .ok (List.replicate 32 (255, 255, 255)) ∧
    map_blocks_to_colors 16 16 zBlocks zMap
      = .ok (List.replicate 2 (255, 255, 255)) := by
  rw [zMap_eq, zBlocks_eq]
  refine ⟨rfl, rfl, rfl⟩

/-- Expansion length: each block contributes exactly `k` pixels. -/
lemma expand_length (k : Nat) (f : Block → Color) (blocks : List Block) :
    (blocks.flatMap (fun b => List.replicate k (f b))).length
      = blocks.length * k := by
  induction blocks with
  | nil => simp
  | cons b bs ih =>
    simp only [List.flatMap_cons, List.length_append, List.length_replicate,
      ih, List.length_cons, Nat.add_mul, Nat.one_mul]
    omega

/-- Expansion indexing: the `t`-th pixel of the `j`-th block's run is the
`j`-th block's color. -/
lemma expand_getD (k : Nat) (f : Block → Color) (blocks : List Block)
    (j t : Nat) (hj : j < blocks.length) (ht : t < k) :
    (blocks.flatMap (fun b => List.replicate k (f b))).getD (j * k + t)
        (0, 0, 0)
      = f (blocks.getD j []) := by
  induction blocks generalizing j with
  | nil => simp at hj
  | cons b bs ih =>
    cases j with
    | zero =>
      simp only [List.flatMap_cons, Nat.zero_mul, Nat.zero_add]
      rw [List.getD_append _ _ _ _ (by simpa using ht)]
      rw [List.getD_eq_getElem _ _ (by simpa using ht)]
      simp
    | succ j' =>
      simp only [List.flatMap_cons]
      rw [List.getD_append_right _ _ _ _
        (by simp [Nat.add_mul]; omega)]
      have hidx : (j' + 1) * k + t - (List.replicate k (f b)).length
          = j' * k + t := by
        simp only [List.length_replicate, Nat.add_mul, Nat.one_mul]
        omega
      rw [hidx]
      exact ih j' (by simpa using hj)

/-- **C4, confirmed.**  For input length `L` and positive block size `B`, the
truncation keeps exactly the first `B * (L / B)` bytes, chunking produces
exactly `L / B` blocks, and block `j` is the slice of `data` at offset
`j * B` of length exactly `B` — so the last `L mod B` bytes are never
referenced. -/
theorem truncation_law (data : List Nat) (bs j : Nat) (hbs : 0 < bs)
    (hj : j < data.length / bs) :
    read_image_bytes bs data = .ok (data.take (bs * (data.length / bs))) ∧
    (break_into_blocks bs (data.take (bs * (data.length / bs)))).length
      = data.length / bs ∧
    (break_into_blocks bs (data.take (bs * (data.length / bs)))).getD j []
      = (data.drop (j * bs)).take bs ∧
    ((data.drop (j * bs)).take bs).length = bs := by
  have hdm := Nat.div_add_mod data.length bs
  have hle : bs * (data.length / bs) ≤ data.length := by omega
  have ht : (data.take (bs * (data.length / bs))).length
      = bs * (data.length / bs) := by
    rw [List.length_take]; omega
  have hq : ((data.take (bs * (data.length / bs))).length + bs - 1) / bs
      = data.length / bs := by
    rw [ht]
    have h1 : bs * (data.length / bs) + bs - 1
        = bs * (data.length / bs) + (bs - 1) := by omega
    rw [h1, Nat.mul_add_div hbs,
      Nat.div_eq_of_lt (show bs - 1 < bs by omega)]
    omega
  have hjb : j * bs + bs ≤ bs * (data.length / bs) := by
    have h2 : (j + 1) * bs ≤ (data.length / bs) * bs :=
      Nat.mul_le_mul_right bs (by omega)
    have h3 : (j + 1) * bs = j * bs + bs := by ring
    have h4 : (data.length / bs) * bs = bs * (data.length / bs) := by ring
    omega
  refine ⟨?_, ?_, ?_, ?_⟩
  · unfold read_image_bytes
    rw [if_neg (by omega)]
    have h5 : data.length - data.length % bs = bs * (data.length / bs) := by
      omega
    rw [h5]
  · unfold break_into_blocks
    rw [List.length_map, List.length_range, hq]
  · unfold break_into_blocks
    rw [List.getD_eq_getElem _ _ (by rw [List.length_map, List.length_range, hq]; exact hj)]
    simp only [List.getElem_map, List.getElem_range]
    rw [List.drop_take, List.take_take]
    have h6 : min bs (bs * (data.length / bs) - j * bs) = bs := by omega
    rw [h6]
  · rw [List.length_take, List.length_drop]
    omega

/-- **C4, witness** for `truncation_law`: 5 bytes, block size 2, block 1. -/
theorem truncation_law_witness :
    read_image_bytes 2 [10, 11, 12, 13, 14]
      = .ok (([10, 11, 12, 13, 14] : List Nat).take
          (2 * (([10, 11, 12, 13, 14] : List Nat).length / 2))) ∧
    (break_into_blocks 2 (([10, 11, 12, 13, 14] : List Nat).take
        (2 * (([10, 11, 12, 13, 14] : List Nat).length / 2)))).length
      = ([10, 11, 12, 13, 14] : List Nat).length / 2 ∧
    (break_into_blocks 2 (([10, 11, 12, 13, 14] : List Nat).take
        (2 * (([10, 11, 12, 13, 14] : List Nat).length / 2)))).getD 1 []
      = (([10, 11, 12, 13, 14] : List Nat).drop (1 * 2)).take 2 ∧
    ((([10, 11, 12, 13, 14] : List Nat).drop (1 * 2)).take 2).length = 2 :=
  truncation_law [10, 11, 12, 13, 14] 2 1 (by decide) (by decide)

/-- **C6, confirmed.**  The ranking is the frequency table sorted by count
descending: it is pairwise count-descending, it is a permutation of the
`Counter` items, and any two entries with equal counts keep their `Counter`
(first-seen) relative order.  Determinism for a fixed input ordering is
immediate, `sorted_blocks` being a pure function of the table. -/
theorem ranking_spec (blocks : List Block) (a b : Block × Nat)
    (hab : a.2 = b.2) (hsub : List.Sublist [a, b] (count_block_frequencies blocks)) :
    (sorted_blocks (count_block_frequencies blocks)).Pairwise
      (fun x y => y.2 ≤ x.2) ∧
    (sorted_blocks (count_block_frequencies blocks)).Perm
      (count_block_frequencies blocks) ∧
    List.Sublist [a, b] (sorted_blocks (count_block_frequencies blocks)) := by
  have htrans : ∀ x y z : Block × Nat,
      countGE x y → countGE y z → countGE x z := by
    intro x y z
    simp only [countGE, decide_eq_true_eq]
    omega
  have htotal : ∀ x y : Block × Nat, countGE x y || countGE y x := by
    intro x y
    simp only [countGE, Bool.or_eq_true, decide_eq_true_eq]
    omega
  refine ⟨?_, List.mergeSort_perm _ _, ?_⟩
  · exact (List.sorted_mergeSort htrans htotal
      (count_block_frequencies blocks)).imp
      (by intro x y h; simpa [countGE] using h)
  · exact List.pair_sublist_mergeSort htrans htotal
      (by simp [countGE, hab]) hsub

/-- **C6, witness** for `ranking_spec`: two distinct blocks, both of count 1,
stay in first-seen order in the ranking. -/
theorem ranking_spec_witness :
    (sorted_blocks (count_block_frequencies [[0], [1]])).Pairwise
      (fun x y => y.2 ≤ x.2) ∧
    (sorted_blocks (count_block_frequencies [[0], [1]])).Perm
      (count_block_frequencies [[0], [1]]) ∧
    List.Sublist [(([0] : Block), 1), ([1], 1)]
      (sorted_blocks (count_block_frequencies [[0], [1]])) :=
  ranking_spec [[0], [1]] ([0], 1) ([1], 1) rfl (by decide)

/-- **C7, confirmed.**  With `pixels_per_block > 0` the expansion stage
succeeds, and pixel `j * (block_size / pixels_per_block) + t` of the output
is the color assigned to the `j`-th input block — i.e. pixels follow the
blocks' original chunk order, never the frequency-rank order. -/
theorem order_preservation (bs ppb : Nat) (blocks : List Block)
    (cmap : List (Block × Color)) (j t : Nat) (hppb : 0 < ppb)
    (hj : j < blocks.length) (ht : t < bs / ppb) :
    runOk (map_blocks_to_colors bs ppb blocks cmap) = true ∧
    (okPixels (map_blocks_to_colors bs ppb blocks cmap)).getD
        (j * (bs / ppb) + t) (0, 0, 0)
      = lookupColor cmap (blocks.getD j []) := by
  unfold map_blocks_to_colors
  rw [if_neg (by omega)]
  exact ⟨rfl, expand_getD (bs / ppb) _ blocks j t hj ht⟩

/-- **C7, witness** for `order_preservation`: block 1's second pixel (index
`1 * 2 + 1 = 3`) carries block 1's color. -/
theorem order_preservation_witness :
    runOk (map_blocks_to_colors 16 8 [[1], [2]]
      [([1], (1, 2, 3)), ([2], (4, 5, 6))]) = true ∧
    (okPixels (map_blocks_to_colors 16 8 [[1], [2]]
        [([1], (1, 2, 3)), ([2], (4, 5, 6))])).getD
        (1 * (16 / 8) + 1) (0, 0, 0)
      = lookupColor [([1], (1, 2, 3)), ([2], (4, 5, 6))]
          (([[1], [2]] : List Block).getD 1 []) :=
  order_preservation 16 8 [[1], [2]] [([1], (1, 2, 3)), ([2], (4, 5, 6))]
    1 1 (by decide) (by decide) (by decide)

/-- **C8, confirmed.**  When `pixels_per_block` is positive and divides
`block_size`, the expansion succeeds and the total pixel count is the number
of blocks times `block_size / pixels_per_block`.  (The length identity holds
independently of divisibility; the divisibility hypothesis only delimits the
claim's scope.) -/
theorem pixel_count_conservation (bs ppb : Nat) (blocks : List Block)
    (cmap : List (Block × Color)) (hppb : 0 < ppb) (_hdvd : ppb ∣ bs) :
    runOk (map_blocks_to_colors bs ppb blocks cmap) = true ∧
    (okPixels (map_blocks_to_colors bs ppb blocks cmap)).length
      = blocks.length * (bs / ppb) := by
  unfold map_blocks_to_colors
  rw [if_neg (by omega)]
  exact ⟨rfl, expand_length _ _ blocks⟩

/-- **C8, witness** for `pixel_count_conservation`: 3 blocks, block size 16,
4 pixels-per-block divisor, 12 pixels. -/
theorem pixel_count_conservation_witness :
    runOk (map_blocks_to_colors 16 4 [[7], [8], [9]] []) = true ∧
    (okPixels (map_blocks_to_colors 16 4 [[7], [8], [9]] [])).length
      = ([[7], [8], [9]] : List Block).length * (16 / 4) :=
  pixel_count_conservation 16 4 [[7], [8], [9]] [] (by decide) (by decide)

/-- The code's height computation (`n / w`, plus one on a remainder) is
ceiling division, and `n` pixels always fit on a `w × ⌈n / w⌉` canvas. -/
lemma ceil_div_aux (n w : Nat) (hw : 0 < w) :
    (if n % w ≠ 0 then n / w + 1 else n / w) = (n + w - 1) / w ∧
    n ≤ w * ((n + w - 1) / w) := by
  have hdm := Nat.div_add_mod n w
  have hmod : n % w < w := Nat.mod_lt n hw
  have harith : n + w - 1 = w * (n / w) + (n % w + w - 1) := by omega
  have hsplit : (n + w - 1) / w = n / w + (n % w + w - 1) / w := by
    rw [harith, Nat.mul_add_div hw]
  by_cases h0 : n % w = 0
  · have hz : (n % w + w - 1) / w = 0 :=
      Nat.div_eq_of_lt (by omega)
    refine ⟨?_, ?_⟩
    · rw [if_neg (by omega), hsplit, hz]
      omega
    · rw [hsplit, hz]
      have hmul : w * (n / w + 0) = w * (n / w) := by ring
      omega
  · have h1 : (n % w + w - 1) / w = 1 := by
      have he : n % w + w - 1 = w * 1 + (n % w - 1) := by omega
      rw [he, Nat.mul_add_div hw,
        Nat.div_eq_of_lt (show n % w - 1 < w by omega)]
    refine ⟨?_, ?_⟩
    · rw [if_pos h0, hsplit, h1]
    · rw [hsplit, h1]
      have hmul : w * (n / w + 1) = w * (n / w) + w := by ring
      omega

/-- The height the code computes is the spec's `ceil(n / width)`. -/
lemma imgHeight_eq (n : Nat) (hn : 0 < n) : imgHeight n = specHeight n := by
  unfold imgHeight specHeight specWidth
  exact (ceil_div_aux n (Nat.sqrt n) (Nat.sqrt_pos.mpr hn)).1

/-- All `n` pixels fit on the canvas. -/
lemma le_width_mul_height (n : Nat) (hn : 0 < n) :
    n ≤ Nat.sqrt n * specHeight n := by
  unfold specHeight specWidth
  exact (ceil_div_aux n (Nat.sqrt n) (Nat.sqrt_pos.mpr hn)).2

/-- A nonempty pixel sequence gives a positive canvas height. -/
lemma specHeight_pos (n : Nat) (hn : 0 < n) : 0 < specHeight n := by
  by_contra h
  have h0 : specHeight n = 0 := by omega
  have hle := le_width_mul_height n hn
  rw [h0, Nat.mul_zero] at hle
  omega

/-- With nonzero `block_size` and `pixels_per_block`, the pipeline reduces to
rendering the expansion of the truncated input's blocks. -/
lemma process_image_eq (cfg : Config) (data : List Nat)
    (hbs : cfg.block_size ≠ 0) (hppb : cfg.pixels_per_block ≠ 0) :
    process_image cfg data = create_image cfg.flip
      ((break_into_blocks cfg.block_size
          (data.take (data.length - data.length % cfg.block_size))).flatMap
        (fun b => List.replicate (cfg.block_size / cfg.pixels_per_block)
          (lookupColor
            (assign_colors_to_blocks
              (count_block_frequencies (break_into_blocks cfg.block_size
                (data.take (data.length - data.length % cfg.block_size))))
              (generate_color_palette cfg.max_colors)) b))) := by
  unfold process_image read_image_bytes map_blocks_to_colors
  simp only [if_neg hbs, if_neg hppb]

/-- Chunking an empty (fully truncated) buffer yields no blocks. -/
lemma break_into_blocks_nil (bs : Nat) (hbs : 0 < bs) :
    break_into_blocks bs [] = [] := by
  unfold break_into_blocks
  rw [List.length_nil]
  rw [Nat.div_eq_of_lt (by omega)]
  rfl

/-- Zero pixels per block expand to an empty pixel sequence. -/
lemma flatMap_replicate_zero (f : Block → Color) (blocks : List Block) :
    blocks.flatMap (fun b => List.replicate 0 (f b)) = [] := by
  induction blocks with
  | nil => rfl
  | cons b bs ih => simp [List.flatMap_cons, ih]

/-- A nonempty pixel sequence renders successfully. -/
lemma create_image_ok (fl : Bool) (pcs : List Color) (hne : pcs ≠ []) :
    runOk (create_image fl pcs) = true := by
  have hn : 0 < pcs.length := List.length_pos.mpr hne
  unfold create_image
  rw [if_neg (by have := Nat.sqrt_pos.mpr hn; omega)]
  rfl

/-- **C9, confirmed.**  For a nonempty pixel sequence of length `n`, the
raster has width `⌊√n⌋` and height `⌈n / width⌉`, and the pixel at linear
index `k` is drawn at `(k mod width, k div width)`, with the y-coordinate
mirrored to `height - y - 1` when the flip option is set; no pixel is
dropped by the `y < height` guard. -/
theorem image_layout (fl : Bool) (pcs : List Color) (hne : pcs ≠ []) :
    create_image fl pcs = .ok
      { width := specWidth pcs.length
        height := specHeight pcs.length
        points := pcs.enum.map
          (fun p => (specPoint fl pcs.length p.1, p.2)) } := by
  have hn : 0 < pcs.length := List.length_pos.mpr hne
  have hw : 0 < Nat.sqrt pcs.length := Nat.sqrt_pos.mpr hn
  have hH := imgHeight_eq pcs.length hn
  have hHpos : 0 < imgHeight pcs.length := by
    rw [hH]
    exact specHeight_pos _ hn
  unfold create_image
  rw [if_neg (by omega)]
  have hall : ∀ q ∈ pcs.enum.map (fun p : Nat × Color =>
      ((p.1 % Nat.sqrt pcs.length,
        if fl then imgHeight pcs.length - p.1 / Nat.sqrt pcs.length - 1
        else p.1 / Nat.sqrt pcs.length), p.2)),
      (decide (q.1.2 < imgHeight pcs.length)) = true := by
    intro q hq
    obtain ⟨p, hp, rfl⟩ := List.mem_map.mp hq
    have hk : p.1 < pcs.length := by
      have h1 := List.mem_enum_iff_getElem?.mp hp
      obtain ⟨hlt, -⟩ := List.getElem?_eq_some.mp h1
      exact hlt
    simp only [decide_eq_true_eq]
    have hy : p.1 / Nat.sqrt pcs.length < imgHeight pcs.length := by
      rw [hH, Nat.div_lt_iff_lt_mul hw]
      have hle := le_width_mul_height pcs.length hn
      have hcomm : Nat.sqrt pcs.length * specHeight pcs.length
          = specHeight pcs.length * Nat.sqrt pcs.length := Nat.mul_comm _ _
      omega
    generalize p.1 / Nat.sqrt pcs.length = y at hy ⊢
    split
    · omega
    · exact hy
  rw [List.filter_eq_self.mpr hall]
  have hfun : (fun p : Nat × Color =>
      ((p.1 % Nat.sqrt pcs.length,
        if fl then imgHeight pcs.length - p.1 / Nat.sqrt pcs.length - 1
        else p.1 / Nat.sqrt pcs.length), p.2))
      = (fun p : Nat × Color => (specPoint fl pcs.length p.1, p.2)) := by
    funext p
    simp only [specPoint, specWidth, hH]
  rw [hfun, hH]
  rfl

/-- **C9, witness** for `image_layout`: a two-pixel sequence. -/
theorem image_layout_witness :
    create_image true [(255, 255, 255), (0, 0, 0)] = .ok
      { width := specWidth ([(255, 255, 255), (0, 0, 0)] : List Color).length
        height := specHeight ([(255, 255, 255), (0, 0, 0)] : List Color).length
        points := ([(255, 255, 255), (0, 0, 0)] : List Color).enum.map
          (fun p =>
            (specPoint true ([(255, 255, 255), (0, 0, 0)] : List Color).length
              p.1, p.2)) } :=
  image_layout true [(255, 255, 255), (0, 0, 0)] (by decide)

/-- **C10, confirmed.**  An empty pixel sequence makes `create_image` compute
width `⌊√0⌋ = 0` and raise `ZeroDivisionError` at `total_pixels // 0`; in
particular a run whose truncated input is empty (`length < block_size`), or
whose blocks each expand to `block_size // pixels_per_block = 0` pixels
(`pixels_per_block > block_size`), aborts with `ZeroDivisionError` and writes
no image. -/
theorem empty_pixel_abort (fl : Bool) (cfg : Config) (data : List Nat)
    (hbs : 0 < cfg.block_size) (hppb : 0 < cfg.pixels_per_block)
    (hcase : data.length < cfg.block_size ∨
      cfg.block_size < cfg.pixels_per_block) :
    create_image fl [] = .error .zeroDivisionError ∧
    process_image cfg data = .error .zeroDivisionError := by
  refine ⟨rfl, ?_⟩
  rw [process_image_eq cfg data (by omega) (by omega)]
  rcases hcase with hA | hB
  · have htrunc : data.take (data.length - data.length % cfg.block_size)
        = [] := by
      rw [Nat.mod_eq_of_lt hA]
      simp
    rw [htrunc, break_into_blocks_nil cfg.block_size hbs]
    rfl
  · rw [Nat.div_eq_of_lt hB, flatMap_replicate_zero]
    rfl

/-- **C10, witness** for `empty_pixel_abort`: a 1-byte input with the default
16-byte block size truncates to nothing and the run aborts. -/
theorem empty_pixel_abort_witness :
    create_image true [] = .error .zeroDivisionError ∧
    process_image ⟨16, 254, true, 16⟩ [0] = .error .zeroDivisionError :=
  empty_pixel_abort true ⟨16, 254, true, 16⟩ [0] (by decide) (by decide)
    (Or.inl (by decide))

/-- **C3, counterexample.**  The claim demands that a configuration with
`max_colors < 2` fail fast with a `ConfigurationError` before any I/O.  With
`max_colors = 1` (and otherwise default parameters) the run does not fail at
all: on a 16-byte input it completes and produces a 1×1 image — the code
performs no parameter validation and defines no `ConfigurationError`. -/
theorem no_validation_cex :
    process_image ⟨16, 1, true, 16⟩ (List.replicate 16 0)
      = .ok { width := 1, height := 1,
              points := [((0, 0), (255, 255, 255))] } := by
  have hfreq : count_block_frequencies
        (break_into_blocks 16 (List.replicate 16 0))
      = [(List.replicate 16 0, 1)] := by decide
  have hsort : sorted_blocks [(List.replicate 16 0, 1)]
      = [(List.replicate 16 0, 1)] := List.mergeSort_singleton _
  have hassign : assign_colors_to_blocks [(List.replicate 16 0, 1)]
        (generate_color_palette 1)
      = [(List.replicate 16 0, (255, 255, 255))] := by
    unfold assign_colors_to_blocks
    rw [hsort]
    decide
  rw [process_image_eq _ _ (by decide) (by decide)]
  have htr : (List.replicate 16 (0 : Nat)).take
        ((List.replicate 16 (0 : Nat)).length -
          (List.replicate 16 (0 : Nat)).length % 16)
      = List.replicate 16 0 := by decide
  dsimp only
  rw [htr, hfreq, hassign]
  rfl

/-- **C3, amended.**  The code performs no configuration validation and has
no `ConfigurationError`: `block_size = 0` is only caught as a
`ZeroDivisionError` raised inside `read_image_bytes`, i.e. *after* the input
file has been read, and a run whose `max_colors` violates the documented
`max_colors ≥ 2` bound, or whose positive `pixels_per_block ≤ block_size`
does *not* divide `block_size`, proceeds without any error.  (`mc` and `ppb`
are arbitrary here: any `max_colors`, and any `pixels_per_block` between 1
and the block size — dividing or not — complete cleanly.) -/
theorem no_configuration_validation (data0 data : List Nat) (mc ppb : Nat)
    (fl : Bool) (hpos : 0 < data.length) (hmod : data.length % 16 = 0)
    (hppb : 0 < ppb) (hle : ppb ≤ 16) :
    read_image_bytes 0 data0 = .error .zeroDivisionError ∧
    runOk (process_image ⟨16, mc, fl, ppb⟩ data) = true := by
  refine ⟨rfl, ?_⟩
  rw [process_image_eq _ _ (show (16 : Nat) ≠ 0 by decide)
    (show ppb ≠ 0 by omega)]
  dsimp only
  apply create_image_ok
  intro hnil
  have hlen := congrArg List.length hnil
  rw [expand_length] at hlen
  have htr : data.take (data.length - data.length % 16) = data := by
    rw [hmod, Nat.sub_zero, List.take_length]
  rw [htr] at hlen
  have hbl : (break_into_blocks 16 data).length
      = (data.length + 16 - 1) / 16 := by
    unfold break_into_blocks
    rw [List.length_map, List.length_range]
  rw [hbl] at hlen
  simp only [List.length_nil] at hlen
  have h16 : 1 ≤ (data.length + 16 - 1) / 16 :=
    (Nat.le_div_iff_mul_le (by omega)).mpr (by omega)
  have hpix : 1 ≤ 16 / ppb := (Nat.le_div_iff_mul_le hppb).mpr (by omega)
  have hprod : 0 < (data.length + 16 - 1) / 16 * (16 / ppb) :=
    Nat.mul_pos h16 hpix
  omega

/-- **C3, witness** for `no_configuration_validation`: `block_size = 0`
raises `ZeroDivisionError`, while `max_colors = 1 < 2` together with the
non-dividing `pixels_per_block = 3` (16 % 3 ≠ 0) completes cleanly. -/
theorem no_configuration_validation_witness :
    read_image_bytes 0 [5] = .error .zeroDivisionError ∧
    runOk (process_image ⟨16, 1, true, 3⟩ (List.replicate 16 0)) = true :=
  no_configuration_validation [5] (List.replicate 16 0) 1 3 true (by decide)
    (by decide) (by decide) (by decide)

end ECB
